import Mathlib

/-!
Shallow embedding of the `rust_hamming_distance` crate, from
`src/bitwise_hamming_distance.rs` and `src/hamming_distance.rs`.

Modelling conventions:
* `u8` values are naturals below 256; the `u32` accumulators wrap modulo
  `2 ^ 32`, written as an explicit `% u32Mod` at every update (Rust
  release-profile overflow semantics).
* `Vec<T>` and `&[T]` are `List T`; `String` and `&str` are `List Char`,
  with `String::len` / `str::len` (the UTF-8 byte count) modelled by
  `utf8_len`.
* `Result<u32, &'static str>` is `Except String Nat`.
* The Rust `Eq` bound on elements is modelled by `DecidableEq`.
-/

/-- Wrap-around modulus of the `u32` accumulators, `2 ^ 32`. -/
def u32Mod : Nat := 4294967296

/-- Models `u8::count_ones`: the number of set bits among the 8 bits of a
byte value (faithful for every argument below 256, i.e. every `u8`). -/
def count_ones (n : Nat) : Nat :=
  n % 2 + n / 2 % 2 + n / 4 % 2 + n / 8 % 2 +
  n / 16 % 2 + n / 32 % 2 + n / 64 % 2 + n / 128 % 2

/-- `impl BitwiseHammingDistancable<&u8> for &u8`:
`(self ^ other).count_ones()`. -/
def bitwise_hamming_distance_u8 (a b : Nat) : Nat :=
  count_ones (a ^^^ b)

/-- One iteration of the loop in the `Vec<u8>` and `&[u8]` impls:
`distance += b1.bitwise_hamming_distance(b2)` on the `u32` accumulator. -/
def bit_step (d : Nat) (p : Nat × Nat) : Nat :=
  (d + bitwise_hamming_distance_u8 p.1 p.2) % u32Mod

/-- `impl BitwiseHammingDistancable<&Vec<u8>> for &Vec<u8>`. -/
def bitwise_hamming_distance_vec (a b : List Nat) : Except String Nat :=
  if a.length ≠ b.length then Except.error "Vectors do not have equal length"
  else Except.ok ((a.zip b).foldl bit_step 0)

/-- `impl BitwiseHammingDistancable<&[u8]> for &[u8]`. -/
def bitwise_hamming_distance_slice (a b : List Nat) : Except String Nat :=
  if a.length ≠ b.length then Except.error "Slices do not have equal length"
  else Except.ok ((a.zip b).foldl bit_step 0)

/-- One iteration of the loop in the element-wise impls:
`if a != b { distance += 1; }` on the `u32` accumulator. -/
def ne_step {T : Type} [DecidableEq T] (d : Nat) (p : T × T) : Nat :=
  if p.1 ≠ p.2 then (d + 1) % u32Mod else d

/-- `impl<T : Eq> HammingDistancable<&Vec<T>> for &Vec<T>`. -/
def hamming_distance_vec {T : Type} [DecidableEq T] (a b : List T) :
    Except String Nat :=
  if a.length ≠ b.length then Except.error "Vectors do not have equal length"
  else Except.ok ((a.zip b).foldl ne_step 0)

/-- `impl<T : Eq> HammingDistancable<&[T]> for &[T]`. -/
def hamming_distance_slice {T : Type} [DecidableEq T] (a b : List T) :
    Except String Nat :=
  if a.length ≠ b.length then Except.error "Slices do not have equal length"
  else Except.ok ((a.zip b).foldl ne_step 0)

/-- The UTF-8 encoding width of one character, exactly as in Rust
`char::len_utf8`. -/
def char_utf8_len (c : Char) : Nat :=
  if c.toNat < 128 then 1
  else if c.toNat < 2048 then 2
  else if c.toNat < 65536 then 3
  else 4

/-- The UTF-8 byte length of a string: Rust `String::len` / `str::len`
count bytes, not characters. -/
def utf8_len (s : List Char) : Nat :=
  (s.map char_utf8_len).sum

/-- `impl HammingDistancable<&String> for &String`: the length guard uses
`self.len()` (the byte length), while the loop compares `chars()`. -/
def hamming_distance_string (a b : List Char) : Except String Nat :=
  if utf8_len a ≠ utf8_len b then Except.error "Strings do not have equal length"
  else Except.ok ((a.zip b).foldl ne_step 0)

/-- `impl HammingDistancable<&str> for &str`: same body as the `String`
impl. -/
def hamming_distance_str (a b : List Char) : Except String Nat :=
  if utf8_len a ≠ utf8_len b then Except.error "Strings do not have equal length"
  else Except.ok ((a.zip b).foldl ne_step 0)

/-- Specification-side population count of a natural number, with no
bit-width truncation: repeated halving, driven by structural fuel. -/
def popCountAux : Nat → Nat → Nat
  | 0, _ => 0
  | _ + 1, 0 => 0
  | f + 1, n + 1 => (n + 1) % 2 + popCountAux f ((n + 1) / 2)

/-- Specification-side population count (number of set bits). -/
def popCount (n : Nat) : Nat := popCountAux n n

/-- Specification-side exact count of positions where the two sequences
differ (over the zipped, i.e. truncated-to-the-shorter, prefix). -/
def mismatch_count {T : Type} [DecidableEq T] (a b : List T) : Nat :=
  (a.zip b).countP (fun p => decide (p.1 ≠ p.2))

/-- Specification-side exact (unbounded-integer) sum of the per-position
bit distances. -/
def exact_bit_sum (a b : List Nat) : Nat :=
  ((a.zip b).map (fun p => bitwise_hamming_distance_u8 p.1 p.2)).sum

/-- The value carried by an `Ok` result, if any. -/
def result_value (r : Except String Nat) : Option Nat :=
  match r with
  | Except.ok d => some d
  | Except.error _ => none

/-- Whether a result is an error. -/
def result_is_err (r : Except String Nat) : Bool :=
  match r with
  | Except.ok _ => false
  | Except.error _ => true

theorem u32Mod_pos : 0 < u32Mod := by decide

theorem count_ones_le_eight (n : Nat) : count_ones n ≤ 8 := by
  unfold count_ones
  omega

theorem bit_step_lt (d : Nat) (p : Nat × Nat) : bit_step d p < u32Mod := by
  unfold bit_step
  exact Nat.mod_lt _ u32Mod_pos

/-- The bitwise accumulation loop computes the exact sum of the pairwise
bit distances, reduced modulo `2 ^ 32`. -/
theorem bit_loop_eq (l : List (Nat × Nat)) :
    ∀ d : Nat, d < u32Mod →
      l.foldl bit_step d =
        (d + (l.map (fun p => bitwise_hamming_distance_u8 p.1 p.2)).sum) % u32Mod := by
  induction l with
  | nil =>
    intro d hd
    simp [Nat.mod_eq_of_lt hd]
  | cons p l ih =>
    intro d hd
    simp only [List.foldl_cons, List.map_cons, List.sum_cons]
    rw [ih (bit_step d p) (bit_step_lt d p)]
    unfold bit_step
    rw [Nat.mod_add_mod, Nat.add_assoc]

theorem ne_step_lt {T : Type} [DecidableEq T] (d : Nat) (p : T × T)
    (hd : d < u32Mod) : ne_step d p < u32Mod := by
  unfold ne_step
  by_cases h : p.1 = p.2
  · simp [h, hd]
  · simp [h]
    exact Nat.mod_lt _ u32Mod_pos

/-- The element-comparison loop computes the exact mismatch count of the
zipped pairs, reduced modulo `2 ^ 32`. -/
theorem ne_loop_eq {T : Type} [DecidableEq T] (l : List (T × T)) :
    ∀ d : Nat, d < u32Mod →
      l.foldl ne_step d = (d + l.countP (fun p => decide (p.1 ≠ p.2))) % u32Mod := by
  induction l with
  | nil =>
    intro d hd
    simp [Nat.mod_eq_of_lt hd]
  | cons p l ih =>
    intro d hd
    rw [List.foldl_cons]
    by_cases h : p.1 = p.2
    · rw [List.countP_cons_of_neg _ _ (by simp [h])]
      have h1 : ne_step d p = d := by simp [ne_step, h]
      rw [h1]
      exact ih d hd
    · rw [List.countP_cons_of_pos _ _ (by simp [h])]
      have h1 : ne_step d p = (d + 1) % u32Mod := by simp [ne_step, h]
      rw [h1, ih _ (Nat.mod_lt _ u32Mod_pos), Nat.mod_add_mod]
      congr 1
      omega

theorem zip_replicate_le {α β : Type} (x : α) (y : β) :
    ∀ n m : Nat, n ≤ m →
      (List.replicate n x).zip (List.replicate m y) = List.replicate n (x, y) := by
  intro n
  induction n with
  | zero =>
    intro m _
    simp
  | succ k ih =>
    intro m hm
    cases m with
    | zero => omega
    | succ j =>
      simp only [List.replicate_succ, List.zip_cons_cons]
      rw [ih j (by omega)]

theorem zip_replicate_same {α β : Type} (x : α) (y : β) (n : Nat) :
    (List.replicate n x).zip (List.replicate n y) = List.replicate n (x, y) :=
  zip_replicate_le x y n n (Nat.le_refl n)

theorem countP_replicate_of_true {α : Type} (f : α → Bool) (x : α)
    (hx : f x = true) : ∀ n, (List.replicate n x).countP f = n := by
  intro n
  induction n with
  | zero => simp
  | succ k ih => simp [List.replicate_succ, List.countP_cons, hx, ih]

theorem sum_map_replicate {α : Type} (f : α → Nat) (x : α) :
    ∀ n, ((List.replicate n x).map f).sum = n * f x := by
  intro n
  induction n with
  | zero => simp
  | succ k ih =>
    simp only [List.replicate_succ, List.map_cons, List.sum_cons, ih]
    ring

theorem utf8_len_replicate (c : Char) (n : Nat) :
    utf8_len (List.replicate n c) = n * char_utf8_len c :=
  sum_map_replicate char_utf8_len c n

theorem xor_lt_256 {a b : Nat} (ha : a < 256) (hb : b < 256) :
    a ^^^ b < 256 := by
  have h256 : (256 : Nat) = 2 ^ 8 := by norm_num
  rw [h256] at ha hb ⊢
  exact Nat.bitwise_lt ha hb

set_option maxRecDepth 4096 in
theorem count_ones_eq_popCount : ∀ n, n < 256 → count_ones n = popCount n := by
  decide

/-- The exact pairwise bit-distance sum is bounded by 8 bits per
position. -/
theorem exact_bit_sum_le (a : List Nat) :
    ∀ b : List Nat, exact_bit_sum a b ≤ 8 * a.length := by
  induction a with
  | nil =>
    intro b
    simp [exact_bit_sum]
  | cons x a ih =>
    intro b
    cases b with
    | nil => simp [exact_bit_sum]
    | cons y b =>
      have h1 := ih b
      have h2 := count_ones_le_eight (x ^^^ y)
      simp only [exact_bit_sum, List.zip_cons_cons, List.map_cons, List.sum_cons,
        List.length_cons, bitwise_hamming_distance_u8] at h1 ⊢
      omega

/-- The mismatch count is bounded by the length of the shorter input. -/
theorem mismatch_count_le {T : Type} [DecidableEq T] (a b : List T) :
    mismatch_count a b ≤ a.length := by
  unfold mismatch_count
  calc (a.zip b).countP (fun p => decide (p.1 ≠ p.2)) ≤ (a.zip b).length :=
        List.countP_le_length _
    _ ≤ a.length := by
        rw [List.length_zip]
        exact Nat.min_le_left _ _

/-- The bitwise accumulation loop, started from 0, yields the exact sum
modulo `2 ^ 32`. -/
theorem bit_loop_zero (a b : List Nat) :
    (a.zip b).foldl bit_step 0 = exact_bit_sum a b % u32Mod := by
  rw [bit_loop_eq (a.zip b) 0 u32Mod_pos, Nat.zero_add]
  rfl

/-- The element-comparison loop, started from 0, yields the exact
mismatch count modulo `2 ^ 32`. -/
theorem ne_loop_zero {T : Type} [DecidableEq T] (a b : List T) :
    (a.zip b).foldl ne_step 0 = mismatch_count a b % u32Mod := by
  rw [ne_loop_eq (a.zip b) 0 u32Mod_pos, Nat.zero_add]
  rfl

/-- On equal-length inputs the byte-sequence implementation takes the
`Ok` branch, with the wrapped sum. -/
theorem bitwise_vec_ok (a b : List Nat) (h : a.length = b.length) :
    bitwise_hamming_distance_vec a b = Except.ok (exact_bit_sum a b % u32Mod) := by
  simp [bitwise_hamming_distance_vec, h, bit_loop_zero]

/-- On equal-length inputs the element-wise `Vec` implementation takes
the `Ok` branch, with the wrapped mismatch count. -/
theorem element_vec_ok {T : Type} [DecidableEq T] (a b : List T)
    (h : a.length = b.length) :
    hamming_distance_vec a b = Except.ok (mismatch_count a b % u32Mod) := by
  simp [hamming_distance_vec, h, ne_loop_zero]

/-- On inputs of equal byte length the `String` implementation takes the
`Ok` branch, with the wrapped mismatch count of the zipped characters. -/
theorem string_ok_of_byte_eq (a b : List Char) (h : utf8_len a = utf8_len b) :
    hamming_distance_string a b = Except.ok (mismatch_count a b % u32Mod) := by
  simp [hamming_distance_string, h, ne_loop_zero]

/-- Claim C2: for every pair of bytes, the `&u8` implementation returns
the population count of their XOR, and the result is at most 8. -/
theorem u8_distance_is_popcount_le_eight (a b : Nat) (ha : a < 256) (hb : b < 256) :
    bitwise_hamming_distance_u8 a b = popCount (a ^^^ b) ∧
    bitwise_hamming_distance_u8 a b ≤ 8 :=
  ⟨count_ones_eq_popCount (a ^^^ b) (xor_lt_256 ha hb), count_ones_le_eight (a ^^^ b)⟩

theorem u8_distance_is_popcount_le_eight_witness :
    bitwise_hamming_distance_u8 1 3 = popCount (1 ^^^ 3) ∧
    bitwise_hamming_distance_u8 1 3 ≤ 8 :=
  u8_distance_is_popcount_le_eight 1 3 (by decide) (by decide)

/-- Claim C5: every public operation is total and yields an explicit
result value: the scalar operation returns a plain count, and each
sequence or text operation returns either `Ok` of a count or its
representation's length-mismatch error, with no other outcome. -/
theorem operations_are_total (T : Type) [DecidableEq T] :
    (∀ a b : Nat, ∃ c : Nat, bitwise_hamming_distance_u8 a b = c) ∧
    (∀ a b : List Nat, (∃ d, bitwise_hamming_distance_vec a b = Except.ok d) ∨
      bitwise_hamming_distance_vec a b = Except.error "Vectors do not have equal length") ∧
    (∀ a b : List Nat, (∃ d, bitwise_hamming_distance_slice a b = Except.ok d) ∨
      bitwise_hamming_distance_slice a b = Except.error "Slices do not have equal length") ∧
    (∀ a b : List T, (∃ d, hamming_distance_vec a b = Except.ok d) ∨
      hamming_distance_vec a b = Except.error "Vectors do not have equal length") ∧
    (∀ a b : List T, (∃ d, hamming_distance_slice a b = Except.ok d) ∨
      hamming_distance_slice a b = Except.error "Slices do not have equal length") ∧
    (∀ a b : List Char, (∃ d, hamming_distance_string a b = Except.ok d) ∨
      hamming_distance_string a b = Except.error "Strings do not have equal length") ∧
    (∀ a b : List Char, (∃ d, hamming_distance_str a b = Except.ok d) ∨
      hamming_distance_str a b = Except.error "Strings do not have equal length") := by
  refine ⟨fun a b => ⟨_, rfl⟩, ?_, ?_, ?_, ?_, ?_, ?_⟩ <;>
    · intro a b
      simp only [bitwise_hamming_distance_vec, bitwise_hamming_distance_slice,
        hamming_distance_vec, hamming_distance_slice, hamming_distance_string,
        hamming_distance_str]
      split
      · exact Or.inr rfl
      · exact Or.inl ⟨_, rfl⟩

/-- Claim C6: whenever an element-wise distance on inputs of matching
length returns `Ok d`, the count `d` is at most the length (character
count, for text) of the first input. -/
theorem ok_count_le_length (T : Type) [DecidableEq T] (a b : List T)
    (s t : List Char) :
    (∀ d, a.length = b.length → hamming_distance_vec a b = Except.ok d →
      d ≤ a.length) ∧
    (∀ d, a.length = b.length → hamming_distance_slice a b = Except.ok d →
      d ≤ a.length) ∧
    (∀ d, utf8_len s = utf8_len t → hamming_distance_string s t = Except.ok d →
      d ≤ s.length) ∧
    (∀ d, utf8_len s = utf8_len t → hamming_distance_str s t = Except.ok d →
      d ≤ s.length) := by
  refine ⟨?_, ?_, ?_, ?_⟩ <;>
    · intro d hlen hok
      simp only [hamming_distance_vec, hamming_distance_slice,
        hamming_distance_string, hamming_distance_str] at hok
      rw [if_neg (by simp [hlen]), ne_loop_zero] at hok
      simp only [Except.ok.injEq] at hok
      subst hok
      exact le_trans (Nat.mod_le _ _) (mismatch_count_le _ _)

theorem ok_count_le_length_witness : (1 : Nat) ≤ ([0, 1] : List Nat).length :=
  (ok_count_le_length Nat [0, 1] [0, 2] ['a'] ['b']).1 1 rfl rfl

/-- Claim C8: the `Vec<T>` and `&[T]` element-wise implementations are
semantically equivalent: identical `Ok` values, and each errors exactly
when the other does. -/
theorem vec_slice_hamming_agree (T : Type) [DecidableEq T] (a b : List T) :
    result_value (hamming_distance_vec a b) =
      result_value (hamming_distance_slice a b) ∧
    result_is_err (hamming_distance_vec a b) =
      result_is_err (hamming_distance_slice a b) := by
  by_cases h : a.length = b.length <;>
    simp [hamming_distance_vec, hamming_distance_slice, h, result_value,
      result_is_err]

theorem vec_slice_hamming_agree_witness :
    result_value (hamming_distance_vec [0, 1] [0, 2]) =
      result_value (hamming_distance_slice [0, 1] [0, 2]) ∧
    result_is_err (hamming_distance_vec [0, 1] [0, 2]) =
      result_is_err (hamming_distance_slice [0, 1] [0, 2]) :=
  vec_slice_hamming_agree Nat [0, 1] [0, 2]

/-- Claim C9: every sequence-level and text-level operation applied to
two empty inputs returns `Ok 0` rather than an error. -/
theorem empty_inputs_give_ok_zero (T : Type) [DecidableEq T] :
    bitwise_hamming_distance_vec [] [] = Except.ok 0 ∧
    bitwise_hamming_distance_slice [] [] = Except.ok 0 ∧
    hamming_distance_vec ([] : List T) [] = Except.ok 0 ∧
    hamming_distance_slice ([] : List T) [] = Except.ok 0 ∧
    hamming_distance_string [] [] = Except.ok 0 ∧
    hamming_distance_str [] [] = Except.ok 0 :=
  ⟨rfl, rfl, rfl, rfl, rfl, rfl⟩

theorem empty_inputs_give_ok_zero_witness :
    hamming_distance_vec ([] : List Nat) [] = Except.ok 0 :=
  (empty_inputs_give_ok_zero Nat).2.2.1

/-- Claim C1 counterexample: `"aa"` and `"é"` have equal UTF-8 byte
lengths (both 2) but different character counts (2 vs 1); the text
implementations nevertheless succeed with `Ok 1` instead of failing
with the length-mismatch error. -/
theorem string_char_count_check_cex :
    hamming_distance_string ['a', 'a'] ['é'] = Except.ok 1 ∧
    hamming_distance_str ['a', 'a'] ['é'] = Except.ok 1 ∧
    (['a', 'a'] : List Char).length ≠ (['é'] : List Char).length :=
  ⟨rfl, rfl, by decide⟩

/-- Claim C1 (amended): the text implementations fail with the
length-mismatch error exactly when the two inputs' UTF-8 byte lengths
differ — the check is byte-count based, not character-count based — and
succeed on all other text inputs. -/
theorem string_error_iff_byte_length_ne (a b : List Char) :
    (hamming_distance_string a b = Except.error "Strings do not have equal length" ↔
      utf8_len a ≠ utf8_len b) ∧
    (hamming_distance_str a b = Except.error "Strings do not have equal length" ↔
      utf8_len a ≠ utf8_len b) ∧
    (utf8_len a = utf8_len b → ∃ d, hamming_distance_string a b = Except.ok d ∧
      hamming_distance_str a b = Except.ok d) := by
  by_cases h : utf8_len a = utf8_len b <;>
    simp [hamming_distance_string, hamming_distance_str, h]

theorem string_error_iff_byte_length_ne_witness :
    utf8_len ['a'] = utf8_len ['b'] ∧
    ∃ d, hamming_distance_string ['a'] ['b'] = Except.ok d ∧
      hamming_distance_str ['a'] ['b'] = Except.ok d :=
  ⟨rfl, (string_error_iff_byte_length_ne ['a'] ['b']).2.2 rfl⟩

theorem bhd_255_0 : bitwise_hamming_distance_u8 255 0 = 8 := by decide

theorem bhd_0_255 : bitwise_hamming_distance_u8 0 255 = 8 := by decide

/-- Claim C3 counterexample: on two `2 ^ 29`-byte vectors differing in
every bit, the `u32` accumulator wraps around and the result is `Ok 0`,
while the sum of the per-position bit distances is `2 ^ 32`. -/
theorem vec_bitwise_sum_cex :
    bitwise_hamming_distance_vec (List.replicate (2 ^ 29) 255)
      (List.replicate (2 ^ 29) 0) = Except.ok 0 ∧
    exact_bit_sum (List.replicate (2 ^ 29) 255) (List.replicate (2 ^ 29) 0) =
      2 ^ 32 := by
  have hsum : exact_bit_sum (List.replicate (2 ^ 29) 255)
      (List.replicate (2 ^ 29) 0) = 2 ^ 32 := by
    unfold exact_bit_sum
    rw [zip_replicate_same, sum_map_replicate]
    norm_num [bhd_255_0]
  refine ⟨?_, hsum⟩
  rw [bitwise_vec_ok _ _ (by simp only [List.length_replicate]), hsum]
  norm_num [u32Mod]

/-- Claim C3 (amended): the byte-sequence implementations fail with their
length-mismatch error exactly when the lengths differ, and otherwise
return `Ok` of the pairwise bit-distance sum reduced modulo `2 ^ 32`
(the `u32` accumulator wraps); this equals the exact sum whenever the
sum is below `2 ^ 32`. -/
theorem vec_slice_bitwise_spec (a b : List Nat) :
    (bitwise_hamming_distance_vec a b =
        Except.error "Vectors do not have equal length" ↔
      a.length ≠ b.length) ∧
    (bitwise_hamming_distance_slice a b =
        Except.error "Slices do not have equal length" ↔
      a.length ≠ b.length) ∧
    (a.length = b.length →
      bitwise_hamming_distance_vec a b =
        Except.ok (exact_bit_sum a b % u32Mod) ∧
      bitwise_hamming_distance_slice a b =
        Except.ok (exact_bit_sum a b % u32Mod)) := by
  by_cases h : a.length = b.length <;>
    simp [bitwise_hamming_distance_vec, bitwise_hamming_distance_slice, h,
      bit_loop_zero]

theorem vec_slice_bitwise_spec_witness :
    ([1, 1] : List Nat).length = ([3, 255] : List Nat).length ∧
    bitwise_hamming_distance_vec [1, 1] [3, 255] =
      Except.ok (exact_bit_sum [1, 1] [3, 255] % u32Mod) ∧
    bitwise_hamming_distance_slice [1, 1] [3, 255] =
      Except.ok (exact_bit_sum [1, 1] [3, 255] % u32Mod) :=
  ⟨rfl, (vec_slice_bitwise_spec [1, 1] [3, 255]).2.2 rfl⟩

/-- Claim C7 counterexample: the accumulator is a `u32`, which is not
wide enough for `8 × length` at length `2 ^ 29`: on vectors of that
length differing in every bit it wraps to `Ok 0`, while the exact
unbounded-integer sum is `2 ^ 32`. -/
theorem accumulator_width_cex :
    bitwise_hamming_distance_vec (List.replicate (2 ^ 29) 0)
      (List.replicate (2 ^ 29) 255) = Except.ok 0 ∧
    exact_bit_sum (List.replicate (2 ^ 29) 0) (List.replicate (2 ^ 29) 255) =
      2 ^ 32 := by
  have hsum : exact_bit_sum (List.replicate (2 ^ 29) 0)
      (List.replicate (2 ^ 29) 255) = 2 ^ 32 := by
    unfold exact_bit_sum
    rw [zip_replicate_same, sum_map_replicate]
    norm_num [bhd_0_255]
  refine ⟨?_, hsum⟩
  rw [bitwise_vec_ok _ _ (by simp only [List.length_replicate]), hsum]
  norm_num [u32Mod]

/-- Claim C7 (amended): the sum is accumulated in a `u32` (wrapping
modulo `2 ^ 32`); whenever `8 × length` fits below `2 ^ 32`, the `Ok`
value equals the exact unbounded-integer sum of the per-position bit
distances. -/
theorem accumulator_exact_when_width_suffices (a b : List Nat)
    (ha : ∀ x ∈ a, x < 256) (hb : ∀ x ∈ b, x < 256)
    (hlen : a.length = b.length) (hw : 8 * a.length < u32Mod) :
    bitwise_hamming_distance_vec a b = Except.ok (exact_bit_sum a b) ∧
    bitwise_hamming_distance_slice a b = Except.ok (exact_bit_sum a b) := by
  have hm : exact_bit_sum a b % u32Mod = exact_bit_sum a b :=
    Nat.mod_eq_of_lt (lt_of_le_of_lt (exact_bit_sum_le a b) hw)
  constructor <;>
    simp [bitwise_hamming_distance_vec, bitwise_hamming_distance_slice, hlen,
      bit_loop_zero, hm]

theorem accumulator_exact_when_width_suffices_witness :
    bitwise_hamming_distance_vec [1, 1] [3, 255] =
      Except.ok (exact_bit_sum [1, 1] [3, 255]) ∧
    bitwise_hamming_distance_slice [1, 1] [3, 255] =
      Except.ok (exact_bit_sum [1, 1] [3, 255]) :=
  accumulator_exact_when_width_suffices [1, 1] [3, 255] (by decide) (by decide)
    rfl (by decide)

/-- Claim C4 counterexample: on two `2 ^ 32`-element vectors differing at
every position, the `u32` counter wraps around and the result is `Ok 0`,
while the number of differing index positions is `2 ^ 32`. -/
theorem vec_element_count_cex :
    hamming_distance_vec (List.replicate (2 ^ 32) true)
      (List.replicate (2 ^ 32) false) = Except.ok 0 ∧
    mismatch_count (List.replicate (2 ^ 32) true)
      (List.replicate (2 ^ 32) false) = 2 ^ 32 := by
  have hcount : mismatch_count (List.replicate (2 ^ 32) true)
      (List.replicate (2 ^ 32) false) = 2 ^ 32 := by
    unfold mismatch_count
    rw [zip_replicate_same]
    exact countP_replicate_of_true _ _ (by decide) _
  refine ⟨?_, hcount⟩
  rw [element_vec_ok _ _ (by simp only [List.length_replicate]), hcount]
  norm_num [u32Mod]

/-- Claim C4 (amended): the element-wise implementations fail with their
length-mismatch error exactly when the element counts differ, and
otherwise return `Ok` of the number of differing index positions reduced
modulo `2 ^ 32` (the `u32` counter wraps); this equals the exact count
whenever it is below `2 ^ 32`. -/
theorem element_distance_spec (T : Type) [DecidableEq T] (a b : List T) :
    (hamming_distance_vec a b =
        Except.error "Vectors do not have equal length" ↔
      a.length ≠ b.length) ∧
    (hamming_distance_slice a b =
        Except.error "Slices do not have equal length" ↔
      a.length ≠ b.length) ∧
    (a.length = b.length →
      hamming_distance_vec a b = Except.ok (mismatch_count a b % u32Mod) ∧
      hamming_distance_slice a b = Except.ok (mismatch_count a b % u32Mod)) := by
  by_cases h : a.length = b.length <;>
    simp [hamming_distance_vec, hamming_distance_slice, h, ne_loop_zero]

theorem element_distance_spec_witness :
    ([0, 1] : List Nat).length = ([0, 2] : List Nat).length ∧
    hamming_distance_vec [0, 1] [0, 2] =
      Except.ok (mismatch_count [0, 1] [0, 2] % u32Mod) ∧
    hamming_distance_slice [0, 1] [0, 2] =
      Except.ok (mismatch_count [0, 1] [0, 2] % u32Mod) :=
  ⟨rfl, (element_distance_spec Nat [0, 1] [0, 2]).2.2 rfl⟩

theorem utf8_len_cons (c : Char) (l : List Char) :
    utf8_len (c :: l) = char_utf8_len c + utf8_len l := by
  simp [utf8_len]

/-- Claim C10 counterexample: with `2 ^ 32 + 1` differing character
pairs, the `u32` counter wraps: the two inputs have equal UTF-8 byte
lengths (`2 ^ 32 + 2`) and different character counts, yet the result is
`Ok 1`, while the number of differing positions among the compared
character pairs is `2 ^ 32 + 1`. -/
theorem string_truncated_count_cex :
    utf8_len ('é' :: List.replicate (2 ^ 32) 'a') =
      utf8_len (List.replicate (2 ^ 32 + 2) 'b') ∧
    ('é' :: List.replicate (2 ^ 32) 'a').length ≠
      (List.replicate (2 ^ 32 + 2) 'b').length ∧
    hamming_distance_string ('é' :: List.replicate (2 ^ 32) 'a')
      (List.replicate (2 ^ 32 + 2) 'b') = Except.ok 1 ∧
    mismatch_count ('é' :: List.replicate (2 ^ 32) 'a')
      (List.replicate (2 ^ 32 + 2) 'b') = 2 ^ 32 + 1 := by
  have hbyte : utf8_len ('é' :: List.replicate (2 ^ 32) 'a') =
      utf8_len (List.replicate (2 ^ 32 + 2) 'b') := by
    have ea : char_utf8_len 'a' = 1 := by decide
    have eb : char_utf8_len 'b' = 1 := by decide
    have ee : char_utf8_len 'é' = 2 := by decide
    rw [utf8_len_cons, utf8_len_replicate, utf8_len_replicate, ea, eb, ee]
    norm_num
  have hsplit : List.replicate (2 ^ 32 + 2) 'b' =
      'b' :: List.replicate (2 ^ 32 + 1) 'b' := by
    rw [show (2 ^ 32 + 2) = (2 ^ 32 + 1) + 1 by norm_num, List.replicate_succ]
  have hzip : ('é' :: List.replicate (2 ^ 32) 'a').zip
      (List.replicate (2 ^ 32 + 2) 'b') =
      ('é', 'b') :: List.replicate (2 ^ 32) ('a', 'b') := by
    rw [hsplit, List.zip_cons_cons,
      zip_replicate_le 'a' 'b' (2 ^ 32) (2 ^ 32 + 1) (by norm_num)]
  have hcount : mismatch_count ('é' :: List.replicate (2 ^ 32) 'a')
      (List.replicate (2 ^ 32 + 2) 'b') = 2 ^ 32 + 1 := by
    unfold mismatch_count
    rw [hzip, List.countP_cons_of_pos _ _ (by decide),
      countP_replicate_of_true _ _ (by decide) (2 ^ 32)]
  refine ⟨hbyte, ?_, ?_, hcount⟩
  · rw [List.length_cons, List.length_replicate, List.length_replicate]
    norm_num
  · rw [string_ok_of_byte_eq _ _ hbyte, hcount]
    norm_num [u32Mod]

/-- Claim C10 (amended): for text inputs with equal UTF-8 byte lengths
but different character counts, the operation succeeds and returns `Ok`
of the number of differing positions among the first
`min(char count of a, char count of b)` character pairs, reduced modulo
`2 ^ 32` (the `u32` counter wraps); this equals the exact count whenever
it is below `2 ^ 32`. -/
theorem string_equal_bytes_truncated_count (a b : List Char)
    (hbyte : utf8_len a = utf8_len b) (hchar : a.length ≠ b.length) :
    hamming_distance_string a b = Except.ok (mismatch_count a b % u32Mod) ∧
    hamming_distance_str a b = Except.ok (mismatch_count a b % u32Mod) := by
  constructor <;>
    simp [hamming_distance_string, hamming_distance_str, hbyte, ne_loop_zero]

theorem string_equal_bytes_truncated_count_witness :
    hamming_distance_string ['a', 'a'] ['é'] =
      Except.ok (mismatch_count ['a', 'a'] ['é'] % u32Mod) ∧
    hamming_distance_str ['a', 'a'] ['é'] =
      Except.ok (mismatch_count ['a', 'a'] ['é'] % u32Mod) :=
  string_equal_bytes_truncated_count ['a', 'a'] ['é'] (by decide) (by decide)
